import Mathlib

/-!
Verification of the Snap2Print job-queue application (src/App.tsx,
src/services/geminiService.ts, src/types.ts) against its specification.

The TypeScript source is shallowly embedded: React state updates on the
`jobs` array become pure functions on `List ImageJob`; an async operation
that performs several `setJobs` calls is modelled by the list of successive
states it produces; the remote generative-AI call and the browser File API
are oracles passed as parameters (`Except` for a call that can throw).
Sequential `await` loops become structural recursion, and the network /
timer activity of a loop is recorded as an explicit event trace.
-/

/-- JobStatus from src/types.ts. -/
inductive JobStatus where
  | IDLE
  | PROCESSING
  | COMPLETED
  | ERROR
deriving DecidableEq, Repr, BEq

/-- ImageJob from src/types.ts.  The browser `File` object is opaque to the
app logic, so it is modelled as a token (`Nat`); `previewUrl` is the object
URL string.  Optional fields become `Option`. -/
structure ImageJob where
  id : String
  file : Nat
  previewUrl : String
  status : JobStatus
  resultHtml : Option String := none
  solutionHtml : Option String := none
  error : Option String := none
deriving DecidableEq, Repr

/-- JavaScript truthiness of an optional string field (`undefined`, `null`
and `""` are falsy): used by the source in `j.resultHtml` filter tests. -/
def truthyStr : Option String → Bool
  | none => false
  | some s => !(s == "")

/-- JavaScript template interpolation of a possibly-undefined string. -/
def jsStr : Option String → String
  | none => "undefined"
  | some s => s

/-- JavaScript `a || b` for strings (`b` when `a` is empty). -/
def jsOrElse (a b : String) : String :=
  if a == "" then b else a

/-- src/App.tsx processJob, first setJobs call: status PROCESSING, error
cleared, on the job with the matching id. -/
def setProcessing (id : String) (jobs : List ImageJob) : List ImageJob :=
  jobs.map fun j =>
    if j.id == id then { j with status := JobStatus.PROCESSING, error := none } else j

/-- src/App.tsx processJob, success setJobs call: status COMPLETED and the
generated html stored in resultHtml. -/
def setCompleted (id html : String) (jobs : List ImageJob) : List ImageJob :=
  jobs.map fun j =>
    if j.id == id then { j with status := JobStatus.COMPLETED, resultHtml := some html } else j

/-- src/App.tsx processJob, catch setJobs call: status ERROR and
`error.message || "Processing failed"` stored in error. -/
def setError (id msg : String) (jobs : List ImageJob) : List ImageJob :=
  jobs.map fun j =>
    if j.id == id then
      { j with status := JobStatus.ERROR, error := some (jsOrElse msg "Processing failed") }
    else j

/-- src/App.tsx processJob (lines 665-682): sets the job PROCESSING, awaits
generateHtmlFromImage (its outcome is the `res` parameter), then records the
COMPLETED result or the caught ERROR. -/
def processJob (id : String) (res : Except String String) (jobs : List ImageJob) :
    List ImageJob :=
  match res with
  | Except.ok html => setCompleted id html (setProcessing id jobs)
  | Except.error msg => setError id msg (setProcessing id jobs)

/-- The successive `jobs` states a processJob call produces. -/
def processJobStates (id : String) (res : Except String String) (jobs : List ImageJob) :
    List (List ImageJob) :=
  [jobs, setProcessing id jobs, processJob id res jobs]

/-- src/App.tsx handleRetryJob (lines 684-689): find the job by id and
reprocess it; nothing happens when the id is absent. -/
def handleRetryJob (id : String) (res : Except String String) (jobs : List ImageJob) :
    List ImageJob :=
  match jobs.find? (fun j => j.id == id) with
  | some job => processJob job.id res jobs
  | none => jobs

/-- The successive states of a handleRetryJob call. -/
def handleRetryJobStates (id : String) (res : Except String String)
    (jobs : List ImageJob) : List (List ImageJob) :=
  match jobs.find? (fun j => j.id == id) with
  | some job => processJobStates job.id res jobs
  | none => [jobs]

/-- An observable event of a processing loop: one API request for a job id,
or a setTimeout delay of the given number of milliseconds. -/
inductive Ev where
  | api (id : String)
  | delayMs (n : Nat)
deriving DecidableEq, Repr

/-- The filter of src/App.tsx handleProcessAll line 693: jobs still needing
processing. -/
def needsProcessing (j : ImageJob) : Bool :=
  j.status == JobStatus.IDLE || j.status == JobStatus.ERROR

/-- The body of the sequential for-loop of handleProcessAll (lines 700-706).
`orig` is the `jobs` array captured by the closure (it is stale: the loop
reads it, not the evolving state, for the existence check), `todo` the
filtered list, `s` the evolving state.  Returns the event trace, the list of
intermediate states, and the final state.  The source awaits each processJob
before the next iteration, so the loop is sequential by construction. -/
def processAllLoop (orig : List ImageJob) (oracle : String → Except String String) :
    List ImageJob → List ImageJob → List Ev × List (List ImageJob) × List ImageJob
  | [], s => ([], [], s)
  | job :: rest, s =>
    if (orig.find? (fun j => j.id == job.id)).isSome then
      let s1 := setProcessing job.id s
      let s2 := processJob job.id (oracle job.id) s
      let r := processAllLoop orig oracle rest s2
      (Ev.api job.id :: Ev.delayMs 500 :: r.1, s1 :: s2 :: r.2.1, r.2.2)
    else
      processAllLoop orig oracle rest s

/-- src/App.tsx handleProcessAll (lines 691-709): filter the IDLE and ERROR
jobs, return early when there are none, otherwise process them one at a time
with a 500 ms delay after each request. -/
def handleProcessAll (jobs : List ImageJob) (oracle : String → Except String String) :
    List Ev × List (List ImageJob) × List ImageJob :=
  processAllLoop jobs oracle (jobs.filter needsProcessing) jobs

/-- The successive states of a handleProcessAll call, starting state included. -/
def handleProcessAllStates (jobs : List ImageJob)
    (oracle : String → Except String String) : List (List ImageJob) :=
  jobs :: (handleProcessAll jobs oracle).2.1

/-- The filter of src/App.tsx handleRemixAll line 713 and of the two export
functions (lines 800, 874): COMPLETED jobs with a truthy resultHtml. -/
def exportable (j : ImageJob) : Bool :=
  j.status == JobStatus.COMPLETED && truthyStr j.resultHtml

/-- src/App.tsx handleRemixAll loop, first setJobs call (line 722): status
PROCESSING (the error field is not touched here). -/
def remixStart (id : String) (jobs : List ImageJob) : List ImageJob :=
  jobs.map fun j => if j.id == id then { j with status := JobStatus.PROCESSING } else j

/-- src/App.tsx handleRemixAll success setJobs call (lines 724-728). -/
def remixDone (id html : String) (jobs : List ImageJob) : List ImageJob :=
  jobs.map fun j =>
    if j.id == id then { j with status := JobStatus.COMPLETED, resultHtml := some html } else j

/-- src/App.tsx handleRemixAll catch setJobs call (line 731): status back to
COMPLETED, resultHtml kept. -/
def remixFail (id : String) (jobs : List ImageJob) : List ImageJob :=
  jobs.map fun j => if j.id == id then { j with status := JobStatus.COMPLETED } else j

/-- The body of the sequential for-loop of handleRemixAll (lines 720-734),
with a 1000 ms delay after each request.  The oracle stands for
remixHtmlContent (imported by App.tsx from the service module). -/
def remixLoop (oracle : String → Except String String) :
    List ImageJob → List ImageJob → List Ev × List (List ImageJob) × List ImageJob
  | [], s => ([], [], s)
  | job :: rest, s =>
    let s1 := remixStart job.id s
    let s2 :=
      match oracle job.id with
      | Except.ok html => remixDone job.id html s1
      | Except.error _ => remixFail job.id s1
    let r := remixLoop oracle rest s2
    (Ev.api job.id :: Ev.delayMs 1000 :: r.1, s1 :: s2 :: r.2.1, r.2.2)

/-- src/App.tsx handleRemixAll (lines 711-736). -/
def handleRemixAll (jobs : List ImageJob) (oracle : String → Except String String) :
    List Ev × List (List ImageJob) × List ImageJob :=
  remixLoop oracle (jobs.filter exportable) jobs

/-- The successive states of a handleRemixAll call, starting state included. -/
def handleRemixAllStates (jobs : List ImageJob)
    (oracle : String → Except String String) : List (List ImageJob) :=
  jobs :: (handleRemixAll jobs oracle).2.1

/-- src/App.tsx handleCropSave (lines 645-663): when a crop target is set,
the matching job gets the cropped file, a fresh object URL, status IDLE, and
cleared resultHtml and error (solutionHtml is preserved by the spread). -/
def handleCropSave (croppingJobId : Option String) (croppedFile : Nat) (newUrl : String)
    (jobs : List ImageJob) : List ImageJob :=
  match croppingJobId with
  | none => jobs
  | some cid =>
    jobs.map fun j =>
      if j.id == cid then
        { j with file := croppedFile, previewUrl := newUrl, status := JobStatus.IDLE,
                 resultHtml := none, error := none }
      else j

/-- The states of a handleCropSave call (a single setJobs update). -/
def handleCropSaveStates (croppingJobId : Option String) (croppedFile : Nat)
    (newUrl : String) (jobs : List ImageJob) : List (List ImageJob) :=
  [jobs, handleCropSave croppingJobId croppedFile newUrl jobs]

/-- src/App.tsx handleRemoveJob (lines 632-638): keep every job whose id
differs from the removed one. -/
def handleRemoveJob (id : String) (jobs : List ImageJob) : List ImageJob :=
  jobs.filter fun j => !(j.id == id)

/-- The status-transition relation the specification states: IDLE to
PROCESSING, PROCESSING to COMPLETED or ERROR, and retry re-enters PROCESSING
from ERROR. -/
def specTrans : JobStatus → JobStatus → Bool
  | JobStatus.IDLE, JobStatus.PROCESSING => true
  | JobStatus.PROCESSING, JobStatus.COMPLETED => true
  | JobStatus.PROCESSING, JobStatus.ERROR => true
  | JobStatus.ERROR, JobStatus.PROCESSING => true
  | _, _ => false

/-- The transition relation the code actually obeys: the spec relation, plus
COMPLETED re-entering PROCESSING (remix, and reprocessing a completed job),
plus the crop reset of any status to IDLE. -/
def amendedTrans (a b : JobStatus) : Bool :=
  specTrans a b || (a == JobStatus.COMPLETED && b == JobStatus.PROCESSING)
    || b == JobStatus.IDLE

/-- One setJobs update respects relation R: positionwise, each job keeps its
status or changes it along R. -/
def stepOkB (R : JobStatus → JobStatus → Bool) : List ImageJob → List ImageJob → Bool
  | [], [] => true
  | a :: s, b :: t => (a.status == b.status || R a.status b.status) && stepOkB R s t
  | _, _ => false

/-- Every consecutive pair of states in the list respects relation R. -/
def chainOkB (R : JobStatus → JobStatus → Bool) : List (List ImageJob) → Bool
  | [] => true
  | [_] => true
  | a :: b :: rest => stepOkB R a b && chainOkB R (b :: rest)

theorem stepOkB_refl (R : JobStatus → JobStatus → Bool) (s : List ImageJob) :
    stepOkB R s s = true := by
  induction s with
  | nil => rfl
  | cons a t ih =>
    simp only [stepOkB, Bool.and_eq_true]
    exact ⟨by cases a.status <;> rfl, ih⟩

theorem stepOkB_map (R : JobStatus → JobStatus → Bool) (f : ImageJob → ImageJob)
    (s : List ImageJob)
    (h : ∀ j ∈ s, (j.status == (f j).status || R j.status (f j).status) = true) :
    stepOkB R s (s.map f) = true := by
  induction s with
  | nil => rfl
  | cons a t ih =>
    simp only [List.map_cons, stepOkB, Bool.and_eq_true]
    exact ⟨h a (List.mem_cons_self a t), ih fun j hj => h j (List.mem_cons_of_mem a hj)⟩

theorem chainOkB_cons_cons (R : JobStatus → JobStatus → Bool) (a b : List ImageJob)
    (l : List (List ImageJob)) :
    chainOkB R (a :: b :: l) = (stepOkB R a b && chainOkB R (b :: l)) := rfl

theorem step_setProcessing (id : String) (s : List ImageJob) :
    stepOkB amendedTrans s (setProcessing id s) = true := by
  apply stepOkB_map
  intro j _
  by_cases h0 : (j.id == id) = true
  · rw [if_pos h0]
    cases j.status <;> rfl
  · rw [if_neg h0]
    cases j.status <;> rfl

theorem status_of_mem_setProcessing (id : String) (s : List ImageJob) (j : ImageJob)
    (hm : j ∈ setProcessing id s) (hid : (j.id == id) = true) :
    j.status = JobStatus.PROCESSING := by
  rcases List.mem_map.mp hm with ⟨j0, _, rfl⟩
  by_cases h0 : (j0.id == id) = true
  · rw [if_pos h0]
  · rw [if_neg h0] at hid ⊢
    exact absurd hid h0

theorem step_setCompleted (id html : String) (s : List ImageJob) :
    stepOkB amendedTrans (setProcessing id s)
      (setCompleted id html (setProcessing id s)) = true := by
  apply stepOkB_map
  intro j hj
  by_cases h0 : (j.id == id) = true
  · rw [if_pos h0, status_of_mem_setProcessing id s j hj h0]
    rfl
  · rw [if_neg h0]
    cases j.status <;> rfl

theorem step_setError (id msg : String) (s : List ImageJob) :
    stepOkB amendedTrans (setProcessing id s)
      (setError id msg (setProcessing id s)) = true := by
  apply stepOkB_map
  intro j hj
  by_cases h0 : (j.id == id) = true
  · rw [if_pos h0, status_of_mem_setProcessing id s j hj h0]
    rfl
  · rw [if_neg h0]
    cases j.status <;> rfl

theorem processJob_chainOk (id : String) (res : Except String String)
    (jobs : List ImageJob) :
    chainOkB amendedTrans (processJobStates id res jobs) = true := by
  cases res with
  | ok html =>
    simp only [processJobStates, processJob, chainOkB, Bool.and_eq_true]
    exact ⟨step_setProcessing id jobs, step_setCompleted id html jobs, trivial⟩
  | error msg =>
    simp only [processJobStates, processJob, chainOkB, Bool.and_eq_true]
    exact ⟨step_setProcessing id jobs, step_setError id msg jobs, trivial⟩

theorem step_remixStart (id : String) (s : List ImageJob) :
    stepOkB amendedTrans s (remixStart id s) = true := by
  apply stepOkB_map
  intro j _
  by_cases h0 : (j.id == id) = true
  · rw [if_pos h0]
    cases j.status <;> rfl
  · rw [if_neg h0]
    cases j.status <;> rfl

theorem status_of_mem_remixStart (id : String) (s : List ImageJob) (j : ImageJob)
    (hm : j ∈ remixStart id s) (hid : (j.id == id) = true) :
    j.status = JobStatus.PROCESSING := by
  rcases List.mem_map.mp hm with ⟨j0, _, rfl⟩
  by_cases h0 : (j0.id == id) = true
  · rw [if_pos h0]
  · rw [if_neg h0] at hid ⊢
    exact absurd hid h0

theorem step_remixDone (id html : String) (s : List ImageJob) :
    stepOkB amendedTrans (remixStart id s) (remixDone id html (remixStart id s)) = true := by
  apply stepOkB_map
  intro j hj
  by_cases h0 : (j.id == id) = true
  · rw [if_pos h0, status_of_mem_remixStart id s j hj h0]
    rfl
  · rw [if_neg h0]
    cases j.status <;> rfl

theorem step_remixFail (id : String) (s : List ImageJob) :
    stepOkB amendedTrans (remixStart id s) (remixFail id (remixStart id s)) = true := by
  apply stepOkB_map
  intro j hj
  by_cases h0 : (j.id == id) = true
  · rw [if_pos h0, status_of_mem_remixStart id s j hj h0]
    rfl
  · rw [if_neg h0]
    cases j.status <;> rfl

theorem processAllLoop_chainOk (orig : List ImageJob)
    (oracle : String → Except String String) (todo : List ImageJob) :
    ∀ s, chainOkB amendedTrans (s :: (processAllLoop orig oracle todo s).2.1) = true := by
  induction todo with
  | nil => intro s; rfl
  | cons job rest ih =>
    intro s
    by_cases hf : (orig.find? (fun j => j.id == job.id)).isSome = true
    · simp only [processAllLoop, if_pos hf]
      rw [chainOkB_cons_cons, chainOkB_cons_cons]
      have h2 : stepOkB amendedTrans (setProcessing job.id s)
          (processJob job.id (oracle job.id) s) = true := by
        cases h : oracle job.id with
        | ok html => simpa [processJob, h] using step_setCompleted job.id html s
        | error msg => simpa [processJob, h] using step_setError job.id msg s
      simp [step_setProcessing job.id s, h2, ih (processJob job.id (oracle job.id) s)]
    · simp only [processAllLoop, if_neg hf]
      exact ih s

theorem remixLoop_chainOk (oracle : String → Except String String)
    (todo : List ImageJob) :
    ∀ s, chainOkB amendedTrans (s :: (remixLoop oracle todo s).2.1) = true := by
  induction todo with
  | nil => intro s; rfl
  | cons job rest ih =>
    intro s
    simp only [remixLoop]
    rw [chainOkB_cons_cons, chainOkB_cons_cons]
    have h2 : stepOkB amendedTrans (remixStart job.id s)
        (match oracle job.id with
          | Except.ok html => remixDone job.id html (remixStart job.id s)
          | Except.error _ => remixFail job.id (remixStart job.id s)) = true := by
      cases h : oracle job.id with
      | ok html => simpa [h] using step_remixDone job.id html s
      | error msg => simpa [h] using step_remixFail job.id s
    simp [step_remixStart job.id s, h2, ih]

theorem step_cropSave (cid : Option String) (croppedFile : Nat) (newUrl : String)
    (s : List ImageJob) :
    stepOkB amendedTrans s (handleCropSave cid croppedFile newUrl s) = true := by
  cases cid with
  | none => exact stepOkB_refl amendedTrans s
  | some c =>
    apply stepOkB_map
    intro j _
    by_cases h0 : (j.id == c) = true
    · rw [if_pos h0]
      cases j.status <;> rfl
    · rw [if_neg h0]
      cases j.status <;> rfl

theorem handleRetryJob_chainOk (id : String) (res : Except String String)
    (jobs : List ImageJob) :
    chainOkB amendedTrans (handleRetryJobStates id res jobs) = true := by
  unfold handleRetryJobStates
  cases jobs.find? (fun j => j.id == id) with
  | none => rfl
  | some job => exact processJob_chainOk job.id res jobs

/-- C1 (amended).  Every status change any operation performs lies in the
amended transition relation: IDLE to PROCESSING, PROCESSING to COMPLETED or
ERROR, ERROR to PROCESSING (retry), plus COMPLETED to PROCESSING (remix, and
reprocessing a completed job) and the crop reset of any status to IDLE.  The
claim as frozen, with the relation lacking the last two transitions, is
refuted by the counterexample below. -/
theorem statusMachine_amended :
    (∀ id res jobs, chainOkB amendedTrans (processJobStates id res jobs) = true)
    ∧ (∀ id res jobs, chainOkB amendedTrans (handleRetryJobStates id res jobs) = true)
    ∧ (∀ jobs oracle, chainOkB amendedTrans (handleProcessAllStates jobs oracle) = true)
    ∧ (∀ jobs oracle, chainOkB amendedTrans (handleRemixAllStates jobs oracle) = true)
    ∧ (∀ cid croppedFile newUrl jobs,
        chainOkB amendedTrans (handleCropSaveStates cid croppedFile newUrl jobs) = true) := by
  refine ⟨processJob_chainOk, handleRetryJob_chainOk, ?_, ?_, ?_⟩
  · intro jobs oracle
    exact processAllLoop_chainOk jobs oracle (jobs.filter needsProcessing) jobs
  · intro jobs oracle
    exact remixLoop_chainOk oracle (jobs.filter exportable) jobs
  · intro cid croppedFile newUrl jobs
    simp only [handleCropSaveStates, chainOkB, Bool.and_eq_true]
    exact ⟨step_cropSave cid croppedFile newUrl jobs, trivial⟩

/-- C1 counterexample: on a single COMPLETED job, handleRemixAll performs the
status change COMPLETED to PROCESSING, which is outside the transition
relation the claim states (IDLE to PROCESSING, PROCESSING to COMPLETED or
ERROR, ERROR to PROCESSING). -/
theorem statusMachine_spec_cex :
    chainOkB specTrans
      (handleRemixAllStates
        [{ id := "a", file := 0, previewUrl := "u", status := JobStatus.COMPLETED,
           resultHtml := some "h" }]
        (fun _ => Except.ok "h2")) = false := by
  rfl

theorem find_self_isSome (orig : List ImageJob) (j : ImageJob) (hm : j ∈ orig) :
    (orig.find? (fun x => x.id == j.id)).isSome = true := by
  induction orig with
  | nil => cases hm
  | cons a t ih =>
    by_cases h0 : (a.id == j.id) = true
    · simp [List.find?_cons, h0]
    · rcases List.mem_cons.mp hm with rfl | hm2
      · exact absurd (by simp) h0
      · simp only [List.find?_cons, h0, cond_false]
        exact ih hm2

theorem processAllLoop_trace (orig : List ImageJob)
    (oracle : String → Except String String) (todo : List ImageJob)
    (hsub : ∀ j ∈ todo, (orig.find? (fun x => x.id == j.id)).isSome = true) :
    ∀ s, (processAllLoop orig oracle todo s).1
      = (todo.map fun j => [Ev.api j.id, Ev.delayMs 500]).flatten := by
  induction todo with
  | nil => intro s; rfl
  | cons job rest ih =>
    intro s
    have hf := hsub job (List.mem_cons_self job rest)
    simp only [processAllLoop, if_pos hf, List.map_cons]
    rw [ih (fun j hj => hsub j (List.mem_cons_of_mem job hj))]
    rfl

/-- C2.  handleProcessAll selects exactly the jobs whose status is IDLE or
ERROR by a linear scan of the jobs array, processes them one at a time in
array order (the loop awaits each request before the next: the event trace
is the in-order concatenation of one API call and one 500 ms delay per
selected job, so a fixed delay separates consecutive calls), and when no job
is IDLE or ERROR it performs no processing and leaves the state unchanged. -/
theorem handleProcessAll_sequential (jobs : List ImageJob)
    (oracle : String → Except String String) :
    (handleProcessAll jobs oracle).1
      = ((jobs.filter needsProcessing).map fun j => [Ev.api j.id, Ev.delayMs 500]).flatten
    ∧ (jobs.filter needsProcessing = [] →
        (handleProcessAll jobs oracle).1 = []
        ∧ (handleProcessAll jobs oracle).2.2 = jobs) := by
  constructor
  · apply processAllLoop_trace
    intro j hj
    exact find_self_isSome jobs j (List.mem_of_mem_filter hj)
  · intro h
    unfold handleProcessAll
    rw [h]
    exact ⟨rfl, rfl⟩

/-- C3 (amended).  A failed processJob is isolated to the failing job: the
result equals a single per-id map, so every job whose id differs is left
completely unchanged (status, resultHtml, file, previewUrl, everything), and
the failing job gets status ERROR and error `message || "Processing failed"`:
the thrown message itself when it is non-empty, the fallback text
"Processing failed" when the thrown message is empty (the claim as frozen,
which says the error field is always the thrown message, is refuted by the
counterexample below). -/
theorem processJob_failure_isolated (id m : String) (jobs : List ImageJob) :
    processJob id (Except.error m) jobs
      = jobs.map (fun j => if j.id == id then
          { j with status := JobStatus.ERROR,
                   error := some (jsOrElse m "Processing failed") }
        else j)
    ∧ (∀ (i : Nat) (j : ImageJob), jobs[i]? = some j → (j.id == id) = false →
        (processJob id (Except.error m) jobs)[i]? = some j)
    ∧ ((m == "") = false → jsOrElse m "Processing failed" = m)
    ∧ ((m == "") = true → jsOrElse m "Processing failed" = "Processing failed") := by
  have hmap : processJob id (Except.error m) jobs
      = jobs.map (fun j => if j.id == id then
          { j with status := JobStatus.ERROR,
                   error := some (jsOrElse m "Processing failed") }
        else j) := by
    simp only [processJob, setError, setProcessing]
    rw [List.map_map]
    apply List.map_congr_left
    intro j _
    by_cases h0 : (j.id == id) = true
    · simp only [Function.comp, if_pos h0]
    · simp only [Function.comp, if_neg h0]
  refine ⟨hmap, ?_, ?_, ?_⟩
  · intro i j hij hne
    rw [hmap, List.getElem?_map, hij, Option.map_some']
    rw [if_neg]
    simp [hne]
  · intro h
    unfold jsOrElse
    rw [if_neg]
    simp [h]
  · intro h
    unfold jsOrElse
    rw [if_pos h]

/-- C3 counterexample: a job failing with an empty thrown message gets the
fallback error text "Processing failed", not the thrown message "". -/
theorem processJob_errorMessage_cex :
    (processJob "a" (Except.error "")
        [{ id := "a", file := 0, previewUrl := "u", status := JobStatus.IDLE }]).map
        (fun j => j.error)
      = [some "Processing failed"]
    ∧ "Processing failed" ≠ "" := by
  exact ⟨rfl, by decide⟩

/-- Concatenation of a list of strings: the `.join("")` of the source. -/
def concatAll : List String → String
  | [] => ""
  | s :: rest => s ++ concatAll rest

/-- The indexed map of JavaScript `array.map((x, index) => ...)`. -/
def mapWithIndex (f : Nat → α → β) : Nat → List α → List β
  | _, [] => []
  | i, a :: rest => f i a :: mapWithIndex f (i + 1) rest

/-- `interleave parts seps` lays the strings of `parts` out in order, a
separator before each part and the leftover separators concatenated at the
end.  A document equal to some interleaving of `parts` therefore contains
exactly those parts, in that order, as disjoint substrings. -/
def interleave : List String → List String → String
  | [], seps => concatAll seps
  | p :: ps, [] => p ++ interleave ps []
  | p :: ps, s :: ss => s ++ p ++ interleave ps ss

theorem strData_eq (a b : String) (h : a.data = b.data) : a = b := by
  cases a
  cases b
  exact congrArg String.mk h

theorem strAssoc (a b c : String) : a ++ b ++ c = a ++ (b ++ c) := by
  apply strData_eq
  simp

theorem strAppendNil (a : String) : a ++ "" = a := by
  apply strData_eq
  simp

/-- The HeaderConfig interface of src/App.tsx (lines 497-507). -/
structure HeaderConfig where
  logoText : String
  logoSubText : String
  courseName : String
  seriesName : String
  marksTime : String
  subjectTitle : String
  instruction1 : String
  instruction2 : String
  fontFamily : String
deriving DecidableEq, Repr

/-- DEFAULT_HEADER_CONFIG of src/App.tsx (lines 509-519). -/
def DEFAULT_HEADER_CONFIG : HeaderConfig :=
  { logoText := "CA CATest"
    logoSubText := "Best Test Series for CA Exams"
    courseName := "CA Foundation Course"
    seriesName := "(Mock Test Paper – Series : 1-2)"
    marksTime := "MAXIMUM MARKS: 100     TIMING: 3 1/4 Hours"
    subjectTitle := "PAPER 1 : ACCOUNTING"
    instruction1 := "Question No. 1 is compulsory."
    instruction2 := "Candidates are required to answer any four questions from the remaining five questions."
    fontFamily := "Arial, sans-serif" }

/-- src/App.tsx generateHeaderHtml (lines 739-797): the fixed exam-paper
header template, with a Word-compatible table variant of the header box.
Literal braces of the source CSS are written \x7b and \x7d, apostrophes
\x27. -/
def generateHeaderHtml (hc : HeaderConfig) (isWord : Bool) : String :=
  "\n    <div style=\"font-family: " ++ hc.fontFamily
    ++ "; max-width: 900px; margin: 0 auto; background: white; padding: 20px 0;\">\n        \n        <!-- Logo Section -->\n        <div style=\"text-align: right; margin-bottom: 10px;\">\n            <span style=\"color: #0056b3; font-weight: bold; font-size: 24px;\">"
    ++ hc.logoText
    ++ "</span><br>\n            <small style=\"font-size: 10px; color: #000;\">"
    ++ hc.logoSubText
    ++ "</small>\n        </div>\n\n        <!-- Top Line -->\n        <hr style=\"border: 0; border-top: 2px solid black; margin: 5px 0;\">\n\n        <!-- Header Box (Course & Series) -->\n        "
    ++ (if isWord then
        "\n        <!-- Word Compatible Table for Header Box -->\n        <table style=\"width: 100%; border: 2px solid black; border-collapse: collapse; margin-top: 5px; font-family: "
          ++ hc.fontFamily
          ++ ";\">\n            <tr>\n                <td style=\"padding: 5px 10px; font-weight: bold; font-size: 18px; vertical-align: middle;\">\n                    "
          ++ hc.courseName
          ++ "\n                </td>\n                <td style=\"padding: 5px 10px; text-align: right; font-weight: bold; font-size: 18px; vertical-align: middle;\">\n                    "
          ++ hc.seriesName
          ++ "<br>\n                    <span style=\"font-size: 16px;\">"
          ++ hc.marksTime
          ++ "</span>\n                </td>\n            </tr>\n        </table>\n        "
      else
        "\n        <!-- Web/Print Flexbox -->\n        <div style=\"border: 2px solid black; padding: 5px 10px; display: flex; justify-content: space-between; align-items: center; font-weight: bold; font-size: 18px;\">\n            <div>"
          ++ hc.courseName
          ++ "</div>\n            <div style=\"text-align: right;\">\n                "
          ++ hc.seriesName
          ++ "<br>\n                <span style=\"font-size: 16px;\">"
          ++ hc.marksTime
          ++ "</span>\n            </div>\n        </div>\n        ")
    ++ "\n\n        <!-- Subject Bar -->\n        <div style=\"background-color: black; color: white; text-align: center; padding: 8px; font-size: 20px; font-weight: bold; letter-spacing: 2px; margin-top: 15px;\">\n            "
    ++ hc.subjectTitle
    ++ "\n        </div>\n\n        <!-- Instructions -->\n        <div style=\"text-align: center; margin-top: 15px; line-height: 1.6; color: black;\">\n            <span style=\"font-size: 22px; font-weight: bold; display: block; margin-bottom: 5px;\">"
    ++ hc.instruction1
    ++ "</span>\n            <span style=\"font-size: 18px; font-weight: bold;\">"
    ++ hc.instruction2
    ++ "</span>\n        </div>\n\n        <!-- Bottom Line -->\n        <hr style=\"border: 0; border-top: 1.5px solid black; margin-top: 15px;\">\n    </div>\n    "

/-- The fixed page-wrapper opening tag of the printable export (line 845). -/
def pwOpen : String := "<div class=\"page-wrapper print-container\">"

/-- The closing of the page wrapper followed by the page-break element
(lines 848-849). -/
def pwCloseBreak : String := "\n    </div>\n    <div class=\"page-break\"></div>"

/-- One mapped block of the printable export body (lines 844-850): a page
wrapper holding the header (first page only) and the job resultHtml,
followed by a page-break element. -/
def printBlock (headerHtml : String) (i : Nat) (j : ImageJob) : String :=
  "\n    " ++ pwOpen ++ "\n        "
    ++ (if i == 0 then headerHtml else "") ++ "\n        "
    ++ jsStr j.resultHtml ++ pwCloseBreak ++ "\n    "

/-- The document prefix of the printable export (lines 806-843), up to and
including the opening of body.  Source CSS braces are written \x7b, \x7d. -/
def docHead (hc : HeaderConfig) : String :=
  "\n<!DOCTYPE html>\n<html lang=\"en\">\n<head>\n    <meta charset=\"UTF-8\">\n    <meta name=\"viewport\" content=\"width=device-width, initial-scale=1.0\">\n    <title>"
    ++ hc.subjectTitle
    ++ "</title>\n    <script src=\"https://cdn.tailwindcss.com\"></script>\n    <style>\n        /* FORCE SELECTED FONT EVERYWHERE */\n        body, .page-wrapper, .page-wrapper * \x7b\n            font-family: "
    ++ hc.fontFamily
    ++ " !important;\n        \x7d\n\n        @media print \x7b\n            .page-break \x7b page-break-after: always; break-after: page; display: block; height: 0; \x7d\n            body \x7b margin: 0; padding: 0; \x7d\n            .print-container \x7b padding: 0; margin: 0; \x7d\n        \x7d\n        .page-wrapper \x7b\n            background: white;\n            min-height: 297mm; /* A4 height */\n            padding: 20px;\n            margin: 20px auto;\n            box-shadow: 0 0 10px rgba(0,0,0,0.1);\n            max-width: 210mm;\n        \x7d\n        @media print \x7b\n            .page-wrapper \x7b\n                box-shadow: none;\n                margin: 0;\n                padding: 0; /* Let the internal padding handle it, or reset */\n                min-height: auto;\n            \x7d\n        \x7d\n    </style>\n</head>\n<body class=\"bg-gray-100 print:bg-white\">\n    "

/-- The document suffix of the printable export (lines 851-860): the
auto-print script and the closing tags. -/
def docTail : String :=
  "\n    \n    <script>\n      window.onload = function() \x7b\n        setTimeout(() => \x7b\n           window.print();\n        \x7d, 1000);\n      \x7d\n    </script>\n</body>\n</html>"

/-- src/App.tsx handleDownloadAll (lines 799-871): the printable-HTML
export.  `none` models the early return that downloads no file; `some doc`
the content of the downloaded blob. -/
def handleDownloadAll (hc : HeaderConfig) (jobs : List ImageJob) : Option String :=
  let completedJobs := jobs.filter exportable
  if completedJobs.isEmpty then none
  else some (docHead hc
    ++ concatAll (mapWithIndex (printBlock (generateHeaderHtml hc false)) 0 completedJobs)
    ++ docTail)

/-- The Word document prefix of src/App.tsx handleDownloadWord
(lines 879-888).  Apostrophes of the source are written \x27, CSS braces
\x7b and \x7d. -/
def wordPre (hc : HeaderConfig) : String :=
  "<html xmlns:o=\x27urn:schemas-microsoft-com:office:office\x27 xmlns:w=\x27urn:schemas-microsoft-com:office:word\x27 xmlns=\x27http://www.w3.org/TR/REC-html40\x27><head><meta charset=\x27utf-8\x27><title>Export HTML To Doc</title>\n    <style>\n      body \x7b font-family: "
    ++ hc.fontFamily
    ++ "; \x7d\n      table \x7b border-collapse: collapse; width: 100%; font-family: "
    ++ hc.fontFamily
    ++ "; \x7d\n      td, th \x7b border: 1px solid #ddd; padding: 8px; font-family: "
    ++ hc.fontFamily
    ++ "; \x7d\n      .page-break \x7b page-break-after: always; \x7d\n      /* Try to enforce font on all elements */\n      * \x7b font-family: "
    ++ hc.fontFamily
    ++ "; \x7d\n    </style>\n    </head><body>"

/-- wordPost of handleDownloadWord (line 890). -/
def wordPost : String := "</body></html>"

/-- The Word-specific page break of handleDownloadWord (line 891). -/
def wordPageBreak : String :=
  "<br clear=all style=\x27mso-special-character:line-break;page-break-before:always\x27>"

/-- One mapped block of the Word export body (lines 895-903). -/
def wordBlock (hc : HeaderConfig) (total : Nat) (i : Nat) (j : ImageJob) : String :=
  "\n      <div class=\"WordSection\" style=\"font-family: " ++ hc.fontFamily ++ ";\">\n        "
    ++ (if i == 0 then generateHeaderHtml hc true else "")
    ++ "\n        <div style=\"font-family: " ++ hc.fontFamily ++ ";\">\n           "
    ++ jsStr j.resultHtml
    ++ "\n        </div>\n      </div>\n      "
    ++ (if i < total - 1 then wordPageBreak else "") ++ "\n    "

/-- src/App.tsx handleDownloadWord (lines 873-919): the Word-compatible
export; the blob content starts with the byte-order mark the source
prepends. -/
def handleDownloadWord (hc : HeaderConfig) (jobs : List ImageJob) : Option String :=
  let completedJobs := jobs.filter exportable
  if completedJobs.isEmpty then none
  else some ("\uFEFF" ++ wordPre hc
    ++ concatAll (mapWithIndex (wordBlock hc completedJobs.length) 0 completedJobs)
    ++ wordPost)

/-- Modelled from the spec: the PDF export function is absent from the
repository files under src/ (the tree is partial: App.tsx likewise imports
CropModal and remixHtmlContent, neither of which is present).  The spec says
the user can assemble the results into "printable HTML, a Word-compatible
document, or a PDF" via "three string-template functions producing the
printable-HTML, Word, and PDF export payloads", the PDF-rendering library
being an external black box invoked with the assembled payload.  Following
those words: a string-template payload over the completed jobs, produced
only when at least one completed job exists. -/
def handleDownloadPdf (hc : HeaderConfig) (jobs : List ImageJob) : Option String :=
  let completedJobs := jobs.filter exportable
  if completedJobs.isEmpty then none
  else some (generateHeaderHtml hc false
    ++ concatAll (completedJobs.map fun j =>
        "<div class=\"pdf-page\">" ++ jsStr j.resultHtml ++ "</div>"))

/-- C4.  The app provides three string-template export functions — printable
HTML (handleDownloadAll), a Word-compatible document (handleDownloadWord)
and a PDF payload (handleDownloadPdf, modelled from the spec since its
source is absent from src/) — and each produces its payload exactly when at
least one completed job with non-empty resultHtml exists. -/
theorem exports_three_formats (hc : HeaderConfig) (jobs : List ImageJob) :
    (jobs.filter exportable ≠ [] →
      (handleDownloadAll hc jobs).isSome = true
      ∧ (handleDownloadWord hc jobs).isSome = true
      ∧ (handleDownloadPdf hc jobs).isSome = true)
    ∧ (jobs.filter exportable = [] →
      handleDownloadAll hc jobs = none
      ∧ handleDownloadWord hc jobs = none
      ∧ handleDownloadPdf hc jobs = none) := by
  constructor
  · intro h
    have he : (jobs.filter exportable).isEmpty = false := by
      cases hfe : jobs.filter exportable with
      | nil => exact absurd hfe h
      | cons a t => rfl
    refine ⟨?_, ?_, ?_⟩ <;> simp [handleDownloadAll, handleDownloadWord, handleDownloadPdf, he]
  · intro h
    refine ⟨?_, ?_, ?_⟩ <;> simp [handleDownloadAll, handleDownloadWord, handleDownloadPdf, h]

/-- The per-job parts the printable document contains in order: the page
wrapper opening, then the job resultHtml immediately followed by the wrapper
closing and the page-break element. -/
def printParts (l : List ImageJob) : List String :=
  (l.map fun j => [pwOpen, jsStr j.resultHtml ++ pwCloseBreak]).flatten

theorem printParts_cons (a : ImageJob) (t : List ImageJob) :
    printParts (a :: t)
      = pwOpen :: (jsStr a.resultHtml ++ pwCloseBreak) :: printParts t := by
  simp [printParts]

theorem interleave_cons (p x : String) (ps ss : List String) :
    interleave (p :: ps) (x :: ss) = x ++ p ++ interleave ps ss := rfl

theorem interleave_printBlocks (hdr : String) (l : List ImageJob) :
    ∀ (i : Nat) (pre : String),
      ∃ seps, pre ++ concatAll (mapWithIndex (printBlock hdr) i l) ++ docTail
        = interleave (printParts l) seps := by
  induction l with
  | nil =>
    intro i pre
    refine ⟨[pre ++ docTail], ?_⟩
    simp [printParts, mapWithIndex, concatAll, interleave, strAppendNil]
  | cons a t ih =>
    intro i pre
    obtain ⟨seps, hs⟩ := ih (i + 1) "\n    "
    refine ⟨(pre ++ "\n    ") ::
      ("\n        " ++ (if i == 0 then hdr else "") ++ "\n        ") :: seps, ?_⟩
    rw [printParts_cons, interleave_cons, interleave_cons, ← hs]
    simp only [mapWithIndex, concatAll, printBlock]
    simp only [strAssoc]

/-- C5 (amended).  The printable-HTML export is pure string templating over
the job list: it produces no file when no job passes the completion filter;
its output depends only on the sublist of jobs whose status is COMPLETED and
whose resultHtml is present AND non-empty (the source filter tests
JavaScript truthiness, so a present-but-empty resultHtml contributes nothing
and triggers no file — the claim as frozen, which keys on mere presence, is
refuted by the counterexample below); and any produced document is an
interleaving of, in jobs-array order for exactly the filtered jobs, a
page-wrapper opening followed by the job resultHtml immediately followed by
the wrapper closing and a page-break element. -/
theorem printable_export_structure (hc : HeaderConfig) (jobs : List ImageJob) :
    (jobs.filter exportable = [] → handleDownloadAll hc jobs = none)
    ∧ handleDownloadAll hc jobs = handleDownloadAll hc (jobs.filter exportable)
    ∧ (∀ doc, handleDownloadAll hc jobs = some doc →
        ∃ seps, doc = interleave (printParts (jobs.filter exportable)) seps) := by
  refine ⟨?_, ?_, ?_⟩
  · intro h
    simp [handleDownloadAll, h]
  · have hff : (jobs.filter exportable).filter exportable = jobs.filter exportable := by
      rw [List.filter_filter]
      congr 1
      funext j
      exact Bool.and_self _
    simp only [handleDownloadAll, hff]
  · intro doc hdoc
    by_cases he : (jobs.filter exportable).isEmpty = true
    · rw [handleDownloadAll] at hdoc
      simp only [he, if_pos] at hdoc
      exact absurd hdoc (by simp)
    · rw [handleDownloadAll] at hdoc
      simp only [he, if_neg, Bool.not_eq_true] at hdoc
      obtain ⟨seps, hs⟩ :=
        interleave_printBlocks (generateHeaderHtml hc false) (jobs.filter exportable) 0
          (docHead hc)
      refine ⟨seps, ?_⟩
      rw [← hs]
      exact (Option.some.injEq _ _ ▸ hdoc).symm

/-- The concrete job refuting C5 as frozen: COMPLETED with resultHtml
present but empty. -/
def emptyHtmlJob : ImageJob :=
  { id := "a", file := 0, previewUrl := "u", status := JobStatus.COMPLETED,
    resultHtml := some "" }

/-- C5 counterexample: this job IS COMPLETED and its resultHtml IS present,
yet the printable export produces no file at all, because the source filter
tests JavaScript truthiness and the empty resultHtml string is falsy. -/
theorem printable_export_cex :
    emptyHtmlJob.status = JobStatus.COMPLETED
    ∧ emptyHtmlJob.resultHtml.isSome = true
    ∧ handleDownloadAll DEFAULT_HEADER_CONFIG [emptyHtmlJob] = none := by
  exact ⟨rfl, rfl, rfl⟩

/-- One inline-data part of a generateContent request: the prepared image. -/
structure GenPart where
  mimeType : String
  data : String
deriving DecidableEq, Repr

/-- A network call the service issues. -/
inductive NetCall where
  | generateContent (mimeType data : String)
deriving DecidableEq, Repr

/-- The backtick character (code 96). -/
def btick : Char := Char.ofNat 96

/-- JavaScript `replace` with the global regex matching the literal seven
characters backtick backtick backtick h t m l and the empty replacement: one
left-to-right pass deleting every non-overlapping occurrence
(geminiService.ts line 329, first replace). -/
def stripFenceHtml : List Char → List Char
  | a :: b :: c :: d :: e :: f :: g :: rest =>
    if a = btick ∧ b = btick ∧ c = btick ∧ d = 'h' ∧ e = 't' ∧ f = 'm' ∧ g = 'l' then
      stripFenceHtml rest
    else a :: stripFenceHtml (b :: c :: d :: e :: f :: g :: rest)
  | l => l

/-- JavaScript `replace` with the global regex matching three literal
backticks and the empty replacement (geminiService.ts line 329, second
replace). -/
def stripTicks : List Char → List Char
  | a :: b :: c :: rest =>
    if a = btick ∧ b = btick ∧ c = btick then stripTicks rest
    else a :: stripTicks (b :: c :: rest)
  | l => l

/-- The whitespace characters JavaScript trim removes (the common ones:
space, tab, line feed, carriage return, vertical tab, form feed, no-break
space stand in for the full Unicode white-space set). -/
def isJsWsp (c : Char) : Bool :=
  c == ' ' || c == '\t' || c == '\n' || c == '\r' || c == '\x0b' || c == '\x0c'
    || c == ' '

/-- JavaScript String.prototype.trim: drop whitespace from both ends. -/
def trimBoth (l : List Char) : List Char :=
  ((l.dropWhile isJsWsp).reverse.dropWhile isJsWsp).reverse

/-- The response post-processing of generateHtmlFromImage (lines 328-329):
drop every code-fence marker, then trim. -/
def cleanResponse (s : String) : String :=
  String.mk (trimBoth (stripTicks (stripFenceHtml s.data)))

/-- JavaScript String.prototype.includes for a literal pattern. -/
def strIncludes (s pat : String) : Bool := decide (pat.data <:+: s.data)

/-- The catch-block error mapping of generateHtmlFromImage (lines 332-341). -/
def mapApiError (m : String) : String :=
  if strIncludes m "API key" || strIncludes m "403" then
    "Invalid API Key. Please check your Vercel Environment Variables."
  else if strIncludes m "429" then
    "Too many requests (429). Please Retry."
  else m

/-- src/services/geminiService.ts generateHtmlFromImage (lines 293-343).
`key` is the configured API key (none when getApiKey throws), `part` the
outcome of fileToGenerativePart (the browser file and canvas pipeline is an
external collaborator; a rejection is caught by the same try block as the
network call), and `api` the remote generateContent endpoint, returning
`response.text` (an optional string) or throwing a message.  The result is
the list of network calls issued and the resolved string or the thrown
message. -/
def generateHtmlFromImage (key : Option String) (part : Except String GenPart)
    (api : GenPart → Except String (Option String)) :
    List NetCall × Except String String :=
  match key with
  | none =>
    ([], Except.error "API Key Missing. In Vercel Settings, try naming your variable \x27VITE_API_KEY\x27 (or \x27REACT_APP_API_KEY\x27) and then REDEPLOY the project.")
  | some _ =>
    match part with
    | Except.error e => ([], Except.error (mapApiError e))
    | Except.ok p =>
      ([NetCall.generateContent p.mimeType p.data],
        match api p with
        | Except.ok t => Except.ok (cleanResponse (t.getD ""))
        | Except.error m => Except.error (mapApiError m))

/-- src/App.tsx processJob line 668 awaits generateHtmlFromImage exactly
once for the job file; one processing attempt issues the network calls of
that single invocation and applies the resulting state update. -/
def processJobAttempt (id : String) (key : Option String) (part : Except String GenPart)
    (api : GenPart → Except String (Option String)) (jobs : List ImageJob) :
    List NetCall × List ImageJob :=
  let r := generateHtmlFromImage key part api
  (r.1, processJob id r.2 jobs)

/-- C6.  Processing one image job performs exactly one network call: the
attempt invokes generateHtmlFromImage once (its calls are the attempt's
calls), that invocation never issues more than one generateContent request,
and when the API key is configured and the image part is prepared it issues
exactly the single generateContent request carrying that image. -/
theorem single_network_call (id : String) (key : Option String)
    (part : Except String GenPart) (api : GenPart → Except String (Option String))
    (jobs : List ImageJob) :
    (processJobAttempt id key part api jobs).1 = (generateHtmlFromImage key part api).1
    ∧ (generateHtmlFromImage key part api).1.length ≤ 1
    ∧ (∀ k p, key = some k → part = Except.ok p →
        (generateHtmlFromImage key part api).1
          = [NetCall.generateContent p.mimeType p.data]) := by
  refine ⟨rfl, ?_, ?_⟩
  · cases key with
    | none => simp [generateHtmlFromImage]
    | some k =>
      cases part with
      | error e => simp [generateHtmlFromImage]
      | ok p => simp [generateHtmlFromImage]
  · intro k p hk hp
    subst hk
    subst hp
    rfl

/-- Whether three consecutive backticks occur somewhere in the list. -/
def hasTriple : List Char → Bool
  | a :: b :: c :: rest =>
    (a == btick && b == btick && c == btick) || hasTriple (b :: c :: rest)
  | _ => false

theorem stripTicks_cons1 (a : Char) (t : List Char) (h : a ≠ btick) :
    stripTicks (a :: t) = a :: stripTicks t := by
  cases t with
  | nil => rfl
  | cons b t2 =>
    cases t2 with
    | nil => rfl
    | cons c r =>
      simp only [stripTicks]
      rw [if_neg]
      intro hx
      exact h hx.1

theorem stripTicks_cons2 (a b : Char) (t : List Char) (h : ¬(a = btick ∧ b = btick)) :
    stripTicks (a :: b :: t) = a :: stripTicks (b :: t) := by
  cases t with
  | nil => rfl
  | cons c r =>
    simp only [stripTicks]
    rw [if_neg]
    intro hx
    exact h ⟨hx.1, hx.2.1⟩

theorem hasTriple_cons_of (a : Char) (T : List Char) (hT : hasTriple T = false)
    (hhead : ∀ x y T2, T = x :: y :: T2 → (a == btick && x == btick && y == btick) = false) :
    hasTriple (a :: T) = false := by
  cases T with
  | nil => rfl
  | cons x T1 =>
    cases T1 with
    | nil => rfl
    | cons y T2 =>
      simp only [hasTriple, Bool.or_eq_false_iff]
      exact ⟨hhead x y T2 rfl, hT⟩

theorem hasTriple_stripTicks_le (n : Nat) :
    ∀ l : List Char, l.length ≤ n → hasTriple (stripTicks l) = false := by
  induction n with
  | zero =>
    intro l hl
    have hnil : l = [] := List.length_eq_zero.mp (Nat.le_zero.mp hl)
    subst hnil
    rfl
  | succ n ih =>
    intro l hl
    cases l with
    | nil => rfl
    | cons a t =>
      cases t with
      | nil => rfl
      | cons b t2 =>
        cases t2 with
        | nil => rfl
        | cons c rest =>
          by_cases htrip : a = btick ∧ b = btick ∧ c = btick
          · have hred : stripTicks (a :: b :: c :: rest) = stripTicks rest := by
              simp only [stripTicks]
              rw [if_pos htrip]
            rw [hred]
            apply ih rest
            simp only [List.length_cons] at hl
            omega
          · have hcons : stripTicks (a :: b :: c :: rest)
                = a :: stripTicks (b :: c :: rest) := by
              simp only [stripTicks]
              rw [if_neg htrip]
            rw [hcons]
            have hTfalse : hasTriple (stripTicks (b :: c :: rest)) = false := by
              apply ih
              simp only [List.length_cons] at hl ⊢
              omega
            apply hasTriple_cons_of a _ hTfalse
            intro x y T2 hTeq
            by_cases ha : a = btick
            · have hbc : ¬(b = btick ∧ c = btick) := by
                intro hx
                exact htrip ⟨ha, hx.1, hx.2⟩
              by_cases hb : b = btick
              · have hc : c ≠ btick := by
                  intro hx
                  exact hbc ⟨hb, hx⟩
                rw [stripTicks_cons2 b c rest hbc, stripTicks_cons1 c rest hc] at hTeq
                injection hTeq with e1 e2
                injection e2 with e2 _
                have hyc : (y == btick) = false := by
                  rw [← e2]
                  simp [hc]
                simp [hyc]
              · rw [stripTicks_cons1 b (c :: rest) hb] at hTeq
                injection hTeq with e1 _
                have hxb : (x == btick) = false := by
                  rw [← e1]
                  simp [hb]
                simp [hxb]
            · have hab : (a == btick) = false := by simp [ha]
              simp [hab]

theorem hasTriple_stripTicks (l : List Char) : hasTriple (stripTicks l) = false :=
  hasTriple_stripTicks_le l.length l (Nat.le_refl _)

theorem hasTriple_of_cons (a : Char) (t : List Char) (h : hasTriple t = true) :
    hasTriple (a :: t) = true := by
  cases t with
  | nil => exact absurd h (by simp [hasTriple])
  | cons x T1 =>
    cases T1 with
    | nil => exact absurd h (by simp [hasTriple])
    | cons y T2 =>
      simp only [hasTriple] at h ⊢
      rw [h]
      simp

theorem hasTriple_of_infix (l : List Char)
    (h : [btick, btick, btick] <:+: l) : hasTriple l = true := by
  induction l with
  | nil =>
    obtain ⟨s, t, hst⟩ := h
    simp at hst
  | cons a t ih =>
    obtain ⟨s, u, hsu⟩ := h
    cases s with
    | nil =>
      simp only [List.nil_append] at hsu
      cases hsu
      simp [hasTriple]
    | cons x s2 =>
      have ht : [btick, btick, btick] <:+: t := by
        refine ⟨s2, u, ?_⟩
        have := congrArg List.tail hsu
        simpa using this
      exact hasTriple_of_cons a t (ih ht)

theorem dropWhile_head_false (p : Char → Bool) (l : List Char) (a : Char) (t : List Char)
    (h : l.dropWhile p = a :: t) : p a = false := by
  induction l with
  | nil => simp at h
  | cons x r ih =>
    rw [List.dropWhile_cons] at h
    by_cases hx : p x = true
    · rw [if_pos hx] at h
      exact ih h
    · rw [if_neg hx] at h
      injection h with h1 _
      rw [← h1]
      cases hpx : p x with
      | true => exact absurd hpx hx
      | false => rfl

theorem dropWhile_expand (p : Char → Bool) (l : List Char) :
    ∃ s, s ++ l.dropWhile p = l := by
  induction l with
  | nil => exact ⟨[], rfl⟩
  | cons x r ih =>
    rw [List.dropWhile_cons]
    by_cases hx : p x = true
    · rw [if_pos hx]
      obtain ⟨s, hs⟩ := ih
      exact ⟨x :: s, by rw [List.cons_append, hs]⟩
    · rw [if_neg hx]
      exact ⟨[], rfl⟩

theorem dropWhile_idem (p : Char → Bool) (l : List Char) :
    (l.dropWhile p).dropWhile p = l.dropWhile p := by
  cases h : l.dropWhile p with
  | nil => rfl
  | cons a t =>
    rw [List.dropWhile_cons, if_neg]
    rw [dropWhile_head_false p l a t h]
    simp

theorem trimBoth_expand (l : List Char) :
    ∃ s t, s ++ trimBoth l ++ t = l := by
  obtain ⟨s, hs⟩ := dropWhile_expand isJsWsp l
  obtain ⟨s2, hs2⟩ := dropWhile_expand isJsWsp (l.dropWhile isJsWsp).reverse
  refine ⟨s, s2.reverse, ?_⟩
  have hrev := congrArg List.reverse hs2
  rw [List.reverse_append, List.reverse_reverse] at hrev
  unfold trimBoth
  rw [List.append_assoc, hrev, hs]

theorem trimBoth_noLead (l : List Char) :
    (trimBoth l).dropWhile isJsWsp = trimBoth l := by
  cases hB : trimBoth l with
  | nil => rfl
  | cons a t =>
    rw [List.dropWhile_cons]
    have ha : isJsWsp a = false := by
      obtain ⟨s2, hs2⟩ := dropWhile_expand isJsWsp (l.dropWhile isJsWsp).reverse
      have hrev := congrArg List.reverse hs2
      rw [List.reverse_append, List.reverse_reverse] at hrev
      have hBeq : trimBoth l ++ s2.reverse = l.dropWhile isJsWsp := hrev
      rw [hB] at hBeq
      cases hA : l.dropWhile isJsWsp with
      | nil => rw [hA] at hBeq; simp at hBeq
      | cons x r =>
        rw [hA] at hBeq
        rw [List.cons_append] at hBeq
        injection hBeq with h1 _
        rw [h1]
        exact dropWhile_head_false isJsWsp l x r hA
    rw [ha]
    simp

theorem trimBoth_noTrail (l : List Char) :
    (trimBoth l).reverse.dropWhile isJsWsp = (trimBoth l).reverse := by
  unfold trimBoth
  rw [List.reverse_reverse]
  exact dropWhile_idem isJsWsp _

theorem cleanResponse_no_triple (s : String) :
    ¬ [btick, btick, btick] <:+: (cleanResponse s).data := by
  intro h
  obtain ⟨u, v, huv⟩ := h
  have huv2 : u ++ [btick, btick, btick] ++ v
      = trimBoth (stripTicks (stripFenceHtml s.data)) := huv
  obtain ⟨s1, t1, hst⟩ := trimBoth_expand (stripTicks (stripFenceHtml s.data))
  have hL : [btick, btick, btick] <:+: stripTicks (stripFenceHtml s.data) := by
    refine ⟨s1 ++ u, v ++ t1, ?_⟩
    rw [← hst, ← huv2]
    simp [List.append_assoc]
  have htrue := hasTriple_of_infix _ hL
  rw [hasTriple_stripTicks] at htrue
  exact Bool.false_ne_true htrue

theorem cleanResponse_no_fence (s : String) :
    ¬ [btick, btick, btick, 'h', 't', 'm', 'l'] <:+: (cleanResponse s).data := by
  intro h
  obtain ⟨u, v, huv⟩ := h
  apply cleanResponse_no_triple s
  exact ⟨u, 'h' :: 't' :: 'm' :: 'l' :: v, by simpa [List.append_assoc] using huv⟩

/-- C8.  For every string the model returns (and for a null or missing
response, which `response.text || ""` turns into the empty string), the
string generateHtmlFromImage resolves with is cleanResponse of it: it
contains no occurrence of three consecutive backticks (hence none of the
seven-character fence marker ending in html), it has no leading and no
trailing whitespace, and a null or missing model response yields the empty
string. -/
theorem generateHtml_output_clean (k : String) (p : GenPart) (t : Option String) :
    (generateHtmlFromImage (some k) (Except.ok p) (fun _ => Except.ok t)).2
        = Except.ok (cleanResponse (t.getD ""))
    ∧ ¬ [btick, btick, btick] <:+: (cleanResponse (t.getD "")).data
    ∧ ¬ [btick, btick, btick, 'h', 't', 'm', 'l'] <:+: (cleanResponse (t.getD "")).data
    ∧ (cleanResponse (t.getD "")).data.dropWhile isJsWsp = (cleanResponse (t.getD "")).data
    ∧ (cleanResponse (t.getD "")).data.reverse.dropWhile isJsWsp
        = (cleanResponse (t.getD "")).data.reverse
    ∧ (t = none → cleanResponse (t.getD "") = "") := by
  refine ⟨rfl, cleanResponse_no_triple _, cleanResponse_no_fence _,
    trimBoth_noLead _, trimBoth_noTrail _, ?_⟩
  intro ht
  subst ht
  rfl

/-- JavaScript Math.round on the non-negative rational a / b (b positive):
half-up rounding, the floor of (2a + b) / (2b). -/
def roundDiv (a b : Nat) : Nat := (2 * a + b) / (2 * b)

/-- The observable output of optimizeImage: the MIME type of the produced
data URL and the canvas dimensions. -/
structure OptimizedImage where
  mimeType : String
  width : Nat
  height : Nat
deriving DecidableEq, Repr

/-- The dimension and MIME computation of src/services/geminiService.ts
optimizeImage (lines 190-239): when a dimension exceeds MAX_DIM = 1536 the
larger one becomes 1536 and the other is scaled proportionally with
Math.round; the canvas is always encoded as image/jpeg (quality 0.7).  The
canvas drawing and file reading are browser APIs (external collaborators);
the arithmetic is transcribed. -/
def optimizeImage (width height : Nat) : OptimizedImage :=
  if width > 1536 ∨ height > 1536 then
    if width > height then
      { mimeType := "image/jpeg", width := 1536, height := roundDiv (height * 1536) width }
    else
      { mimeType := "image/jpeg", width := roundDiv (width * 1536) height, height := 1536 }
  else
    { mimeType := "image/jpeg", width := width, height := height }

theorem roundDiv_nearest (a b : Nat) (hb : 0 < b) :
    2 * Nat.dist (b * roundDiv a b) a ≤ b := by
  have hmod := Nat.div_add_mod a b
  set q := a / b with hq
  set s := a % b with hs
  have hsb : s < b := Nat.mod_lt a hb
  have haq : a = b * q + s := hmod.symm
  have hr : roundDiv a b = (2 * s + b) / (2 * b) + q := by
    unfold roundDiv
    have key : 2 * a + b = (2 * s + b) + 2 * b * q := by
      rw [haq]
      ring
    rw [key, Nat.add_mul_div_left _ _ (by omega)]
  obtain ⟨B, hB⟩ : ∃ B, b * q = B := ⟨_, rfl⟩
  by_cases hcase : 2 * s < b
  · have h0 : (2 * s + b) / (2 * b) = 0 := Nat.div_eq_of_lt (by omega)
    rw [hr, h0, Nat.zero_add, hB]
    rw [hB] at haq
    simp only [Nat.dist]
    omega
  · have h1 : (2 * s + b) / (2 * b) = 1 := by
      have lo : 1 ≤ (2 * s + b) / (2 * b) := by
        rw [Nat.le_div_iff_mul_le (by omega)]
        omega
      have hi : (2 * s + b) / (2 * b) < 2 := by
        rw [Nat.div_lt_iff_lt_mul (by omega)]
        omega
      omega
    rw [hr, h1]
    have hmul : b * (1 + q) = b + B := by
      rw [← hB]
      ring
    rw [hmul]
    rw [hB] at haq
    simp only [Nat.dist]
    omega

/-- C9.  optimizeImage always outputs MIME type image/jpeg and dimensions
each at most 1536; when both source dimensions are at most 1536 they are
unchanged; otherwise the larger dimension becomes exactly 1536 and the other
is scaled proportionally with rounding to the nearest integer (the scaled
value v satisfies the half-up-rounding bound two times the distance of
(v times the larger source dimension) from (the other source dimension times
1536) is at most the larger source dimension). -/
theorem optimizeImage_spec (w h : Nat) :
    (optimizeImage w h).mimeType = "image/jpeg"
    ∧ (optimizeImage w h).width ≤ 1536
    ∧ (optimizeImage w h).height ≤ 1536
    ∧ (w ≤ 1536 ∧ h ≤ 1536 →
        (optimizeImage w h).width = w ∧ (optimizeImage w h).height = h)
    ∧ (w > 1536 ∨ h > 1536 →
        (w > h →
          (optimizeImage w h).width = 1536
          ∧ (optimizeImage w h).height = roundDiv (h * 1536) w
          ∧ 2 * Nat.dist (w * (optimizeImage w h).height) (h * 1536) ≤ w)
        ∧ (¬ w > h →
          (optimizeImage w h).height = 1536
          ∧ (optimizeImage w h).width = roundDiv (w * 1536) h
          ∧ 2 * Nat.dist (h * (optimizeImage w h).width) (w * 1536) ≤ h)) := by
  by_cases hbig : w > 1536 ∨ h > 1536
  · by_cases hwh : w > h
    · have hw : 0 < w := by omega
      have heq : optimizeImage w h
          = { mimeType := "image/jpeg", width := 1536,
              height := roundDiv (h * 1536) w } := by
        unfold optimizeImage
        rw [if_pos hbig, if_pos hwh]
      have hhle : roundDiv (h * 1536) w ≤ 1536 := by
        unfold roundDiv
        have : 2 * (h * 1536) + w < 1537 * (2 * w) := by omega
        have hlt := (Nat.div_lt_iff_lt_mul (k := 2 * w) (by omega)).mpr this
        omega
      rw [heq]
      refine ⟨rfl, Nat.le_refl 1536, hhle, ?_, ?_⟩
      · intro hx
        exact absurd hbig (by omega)
      · intro _
        exact ⟨fun _ => ⟨rfl, rfl, roundDiv_nearest (h * 1536) w hw⟩,
               fun hc => absurd hwh hc⟩
    · have hh : 0 < h := by omega
      have heq : optimizeImage w h
          = { mimeType := "image/jpeg", width := roundDiv (w * 1536) h,
              height := 1536 } := by
        unfold optimizeImage
        rw [if_pos hbig, if_neg hwh]
      have hwle : roundDiv (w * 1536) h ≤ 1536 := by
        unfold roundDiv
        have : 2 * (w * 1536) + h < 1537 * (2 * h) := by omega
        have hlt := (Nat.div_lt_iff_lt_mul (k := 2 * h) (by omega)).mpr this
        omega
      rw [heq]
      refine ⟨rfl, hwle, Nat.le_refl 1536, ?_, ?_⟩
      · intro hx
        exact absurd hbig (by omega)
      · intro _
        exact ⟨fun hc => absurd hc hwh,
               fun _ => ⟨rfl, rfl, roundDiv_nearest (w * 1536) h hh⟩⟩
  · have heq : optimizeImage w h
        = { mimeType := "image/jpeg", width := w, height := h } := by
      unfold optimizeImage
      rw [if_neg hbig]
    rw [heq]
    exact ⟨rfl, show w ≤ 1536 by omega, show h ≤ 1536 by omega,
      fun _ => ⟨rfl, rfl⟩, fun hc => absurd hc hbig⟩

theorem getElem?_mapIf (g : ImageJob → ImageJob) (pred : ImageJob → Bool)
    (jobs : List ImageJob) (i : Nat) (j : ImageJob) (h : jobs[i]? = some j) :
    (jobs.map (fun x => if pred x then g x else x))[i]?
      = some (if pred j then g j else j) := by
  rw [List.getElem?_map, h, Option.map_some']

/-- C10.  Every per-job operation modifies at most the job with the targeted
id and preserves identity, fields and relative order of all other records:
handleRemoveJob yields an order-preserving sublist holding exactly the jobs
whose id differs; handleCropSave keeps the length and, positionwise, leaves
non-matching jobs untouched and replaces only file, previewUrl, status,
resultHtml and error of the matching one (id and solutionHtml are kept); a
processJob update keeps the length and leaves non-matching jobs untouched. -/
theorem per_job_frame (id c : String) (croppedFile : Nat) (newUrl : String)
    (res : Except String String) (jobs : List ImageJob) :
    ((handleRemoveJob id jobs).Sublist jobs
      ∧ (∀ j ∈ jobs, (j.id == id) = false → j ∈ handleRemoveJob id jobs)
      ∧ (∀ j ∈ handleRemoveJob id jobs, (j.id == id) = false))
    ∧ ((handleCropSave (some c) croppedFile newUrl jobs).length = jobs.length
      ∧ (∀ (i : Nat) (j : ImageJob), jobs[i]? = some j → (j.id == c) = false →
          (handleCropSave (some c) croppedFile newUrl jobs)[i]? = some j)
      ∧ (∀ (i : Nat) (j : ImageJob), jobs[i]? = some j → (j.id == c) = true →
          (handleCropSave (some c) croppedFile newUrl jobs)[i]?
            = some { j with
                file := croppedFile, previewUrl := newUrl,
                status := JobStatus.IDLE, resultHtml := none, error := none }))
    ∧ ((processJob id res jobs).length = jobs.length
      ∧ (∀ (i : Nat) (j : ImageJob), jobs[i]? = some j → (j.id == id) = false →
          (processJob id res jobs)[i]? = some j)) := by
  refine ⟨⟨List.filter_sublist jobs, ?_, ?_⟩, ⟨?_, ?_, ?_⟩, ⟨?_, ?_⟩⟩
  · intro j hj hne
    rw [handleRemoveJob, List.mem_filter]
    exact ⟨hj, by rw [hne]; rfl⟩
  · intro j hj
    rw [handleRemoveJob, List.mem_filter] at hj
    have := hj.2
    cases hb : (j.id == id) with
    | false => rfl
    | true => rw [hb] at this; exact absurd this (by simp)
  · rw [handleCropSave, List.length_map]
  · intro i j hij hne
    rw [handleCropSave, getElem?_mapIf _ _ jobs i j hij, if_neg]
    simp [hne]
  · intro i j hij heq
    rw [handleCropSave, getElem?_mapIf _ _ jobs i j hij, if_pos heq]
  · cases res with
    | ok html =>
      simp only [processJob, setCompleted, setProcessing, List.length_map]
    | error msg =>
      simp only [processJob, setError, setProcessing, List.length_map]
  · intro i j hij hne
    have hinner : (setProcessing id jobs)[i]? = some j := by
      rw [setProcessing, getElem?_mapIf _ _ jobs i j hij, if_neg]
      simp [hne]
    cases res with
    | ok html =>
      simp only [processJob, setCompleted]
      rw [getElem?_mapIf _ _ _ i j hinner, if_neg]
      simp [hne]
    | error msg =>
      simp only [processJob, setError]
      rw [getElem?_mapIf _ _ _ i j hinner, if_neg]
      simp [hne]

/-- Modelled from the spec: no operation in the partial source tree under
src/ writes the solutionHtml field (only its declaration remains, in
types.ts, with the comment "Stores the AI generated detailed solution").
The spec says the app "offers AI-driven ... solution-key generation for
exam-paper use cases".  Following those words: an operation that, for each
completed job, asks the model for a detailed solution to the job content and
stores it in the job record solutionHtml field. -/
def handleGenerateSolutions (oracle : String → String) (jobs : List ImageJob) :
    List ImageJob :=
  jobs.map fun j =>
    if exportable j then
      { j with solutionHtml := some (oracle (jsStr j.resultHtml)) }
    else j

/-- C7.  The app offers solution-key generation: the operation (modelled
from the spec, its code being absent from src/) stores, for every completed
job, the AI-generated detailed solution in the job record solutionHtml
field, and touches nothing else. -/
theorem solution_key_generation (oracle : String → String) (jobs : List ImageJob) :
    (handleGenerateSolutions oracle jobs).length = jobs.length
    ∧ (∀ (i : Nat) (j : ImageJob), jobs[i]? = some j → exportable j = true →
        (handleGenerateSolutions oracle jobs)[i]?
          = some { j with solutionHtml := some (oracle (jsStr j.resultHtml)) })
    ∧ (∀ (i : Nat) (j : ImageJob), jobs[i]? = some j → exportable j = false →
        (handleGenerateSolutions oracle jobs)[i]? = some j) := by
  refine ⟨?_, ?_, ?_⟩
  · rw [handleGenerateSolutions, List.length_map]
  · intro i j hij heq
    rw [handleGenerateSolutions, getElem?_mapIf _ _ jobs i j hij, if_pos heq]
  · intro i j hij hne
    rw [handleGenerateSolutions, getElem?_mapIf _ _ jobs i j hij, if_neg]
    simp [hne]
